import Mathlib

/-!
Shallow embedding of `local-json-db` (`src/index.js`), a single-class
Node.js library (`LocalJSONDB`) storing an ordered JSON array of records
in one file and offering create/read/write/update/delete/query.

Modelling conventions:

* JSON values are modelled by `JSValue`. Numbers are modelled as integers
  (`Int`): every identifier the code synthesizes is `Date.now()`, an
  integer, and no claim depends on non-integer float behaviour.
* A JavaScript object is an insertion-ordered association list
  `JSObject := List (String × JSValue)`; objects built by the code always
  have distinct keys (object-literal/spread construction goes through
  `objSet`, which updates an existing key in place and otherwise appends,
  exactly JavaScript's CopyDataProperties semantics).
* The backing file is modelled at the level of its parsed content
  (`FileContent`): `.stored v` is a file whose bytes are valid JSON
  parsing to `v`, `.invalid raw` a file whose bytes are not valid JSON,
  `.absent` a missing file.  `JSON.stringify`/`JSON.parse` are platform
  primitives, not code of this repository; the embedding relies only on
  the round-trip `JSON.parse (JSON.stringify v) = v`, which this
  representation builds in by keeping the parsed value.
* `fs.readFileSync` on a missing file raises (`.ioError`);
  `JSON.parse` on malformed bytes raises `SyntaxError` (`.syntaxError`);
  calling an array method (`push`/`findIndex`/`filter`) on a non-array
  value, or reading a property of `null`, raises `TypeError`
  (`.typeError`).  Fallible steps return `Except DBError`.
* `Date.now()` is nondeterministic input; it is passed explicitly as the
  `now : Int` argument of `create`.
* Strict equality `===`, used by `update`/`delete` to compare `record.id`
  with the supplied id, is `strictEq`: value equality on primitives of
  the same type, `false` across types.  On arrays/objects `===` is
  reference equality; a record freshly parsed from the file is never
  reference-identical to a caller-held value, so `false` is the faithful
  result for composite comparands on these code paths.  Accessing a
  missing property yields `undefined`, modelled as `Option.none` from
  `getIdField`; `undefined === id` is `false` for every JSON-valued `id`.
-/

/-- A JSON value (numbers restricted to integers, see module comment). -/
inductive JSValue where
  | null
  | boolean (b : Bool)
  | number (n : Int)
  | string (s : String)
  | array (elems : List JSValue)
  | object (fields : List (String × JSValue))

/-- A JavaScript object: insertion-ordered field list. -/
abbrev JSObject := List (String × JSValue)

/-- Property read `o[k]` on an object: first entry with key `k` (objects
built by the code have distinct keys). `none` models `undefined`. -/
def lookupField (o : JSObject) (k : String) : Option JSValue :=
  match o with
  | [] => none
  | (k', v) :: rest => if k' == k then some v else lookupField rest k

/-- The value the LAST entry with key `k` contributes — with duplicate
keys in an object literal/spread chain, the last write wins. -/
def lookupLast (fs : JSObject) (k : String) : Option JSValue :=
  match fs with
  | [] => none
  | (k', v) :: rest =>
    match lookupLast rest k with
    | some w => some w
    | none => if k' == k then some v else none

/-- One step of CopyDataProperties: define property `k := v` on `o` —
if `k` is already a key its (first) entry's value is updated in place,
otherwise `(k, v)` is appended. -/
def objSet (o : JSObject) (k : String) (v : JSValue) : JSObject :=
  match o with
  | [] => [(k, v)]
  | (k', v') :: rest =>
    if k' == k then (k, v) :: rest else (k', v') :: objSet rest k v

/-- Spread `fs` over `o`, left to right: `{ ...o, ...fs }` when `o` has
distinct keys. -/
def mergeInto (o : JSObject) (fs : JSObject) : JSObject :=
  fs.foldl (fun acc kv => objSet acc kv.1 kv.2) o

/-- Own enumerable properties contributed when a value is spread into an
object literal: objects contribute their fields, strings and arrays
their indexed elements, primitives nothing (`{...5} = {}` etc.). -/
def spreadOf (v : JSValue) : JSObject :=
  match v with
  | .object o => o
  | .string s => (s.toList.enum).map (fun ic => (toString ic.1, JSValue.string ic.2.toString))
  | .array xs => xs.enum.map (fun ix => (toString ix.1, ix.2))
  | _ => []

/-- JavaScript strict equality `===` on JSON values (see module comment
for the composite-value cases, which are reference comparisons). -/
def strictEq : JSValue → JSValue → Bool
  | .null, .null => true
  | .boolean a, .boolean b => a == b
  | .number a, .number b => a == b
  | .string a, .string b => a == b
  | _, _ => false

/-- Exceptions the modelled code can raise. -/
inductive DBError where
  | ioError
  | syntaxError
  | typeError

/-- The state of the backing file, at the level of its parsed content
(see module comment): `.stored v` = bytes that are valid JSON parsing to
`v`; `.invalid raw` = bytes that are not valid JSON; `.absent` = no file. -/
inductive FileContent where
  | absent
  | stored (v : JSValue)
  | invalid (raw : String)

namespace LocalJSONDB

/-- `constructor(filePath)`: if the file does not exist, write
`JSON.stringify([])`; otherwise touch nothing. -/
def construct (fc : FileContent) : FileContent :=
  match fc with
  | .absent => .stored (.array [])
  | c => c

/-- `read()`: `JSON.parse(fs.readFileSync(this.filePath, "utf8"))`.
Returns whatever the file parses to — there is no array-shape check. -/
def read (fc : FileContent) : Except DBError JSValue :=
  match fc with
  | .absent => .error .ioError
  | .stored v => .ok v
  | .invalid _ => .error .syntaxError

/-- `write(data)`: `fs.writeFileSync(this.filePath, JSON.stringify(data, null, 2))` —
the file now holds exactly the serialization of `data`. -/
def write (data : JSValue) : FileContent :=
  .stored data

/-- Dispatch of an array method (`push` / `findIndex` / `filter`) on the
parsed data: succeeds with the elements when the data is an array,
raises `TypeError` otherwise (non-arrays have no such method). -/
def asArray (v : JSValue) : Except DBError (List JSValue) :=
  match v with
  | .array elems => .ok elems
  | _ => .error .typeError

/-- `record.id`: property read, `TypeError` on `null`, `undefined`
(= `none`) on primitives and arrays, field lookup on objects. -/
def getIdField (r : JSValue) : Except DBError (Option JSValue) :=
  match r with
  | .null => .error .typeError
  | .object o => .ok (lookupField o "id")
  | _ => .ok none

/-- The callback `(record) => record.id === id`. -/
def idMatches (id : JSValue) (r : JSValue) : Except DBError Bool :=
  match getIdField r with
  | .error e => .error e
  | .ok f =>
    .ok (match f with
         | some v => strictEq v id
         | none => false)

/-- Pure value of `idMatches` on non-`null` records (property access on
a non-`null` value never raises). -/
def idMatchesB (id : JSValue) (r : JSValue) : Bool :=
  match r with
  | .object o =>
    match lookupField o "id" with
    | some v => strictEq v id
    | none => false
  | _ => false

/-- `data.findIndex((record) => record.id === id)`, with `none` for `-1`. -/
def findIndexById (id : JSValue) (l : List JSValue) : Except DBError (Option Nat) :=
  match l with
  | [] => .ok none
  | r :: rest =>
    match idMatches id r with
    | .error e => .error e
    | .ok true => .ok (some 0)
    | .ok false =>
      match findIndexById id rest with
      | .error e => .error e
      | .ok o => .ok (o.map Nat.succ)

/-- `data.filter((record) => record.id !== id)`: keeps, in order, every
element whose `id` is NOT strictly equal to `id`. -/
def filterNotId (id : JSValue) (l : List JSValue) : Except DBError (List JSValue) :=
  match l with
  | [] => .ok []
  | r :: rest =>
    match idMatches id r with
    | .error e => .error e
    | .ok m =>
      match filterNotId id rest with
      | .error e => .error e
      | .ok rest' => .ok (if m then rest' else r :: rest')

/-- `create(record)`: read; `newRecord = { id: Date.now(), ...record }`
(the spread comes AFTER the `id:` property, so a caller-supplied `id`
entry overwrites the synthesized one); push; write; return `newRecord`. -/
def create (now : Int) (record : JSObject) (fc : FileContent) :
    Except DBError (JSObject × FileContent) := do
  let data ← read fc
  let elems ← asArray data
  let newRecord := mergeInto [("id", JSValue.number now)] record
  .ok (newRecord, write (.array (elems ++ [JSValue.object newRecord])))

/-- `update(id, updatedFields)`: read; `findIndex` on `record.id === id`;
`null` (here `none`) if not found, file untouched; otherwise
`{ ...data[index], ...updatedFields }` replaces the record at `index`,
the document is written, and the merged record is returned. -/
def update (id : JSValue) (updatedFields : JSObject) (fc : FileContent) :
    Except DBError (Option JSObject × FileContent) := do
  let data ← read fc
  let elems ← asArray data
  let idx ← findIndexById id elems
  match idx with
  | none => .ok (none, fc)
  | some index =>
    let updatedRecord := mergeInto (spreadOf ((elems.get? index).getD .null)) updatedFields
    .ok (some updatedRecord, write (.array (elems.set index (JSValue.object updatedRecord))))

/-- `delete(id)`: read; filter out every record with `record.id === id`
(strict equality); if the length is unchanged return `false` with the
file untouched, else write the filtered array and return `true`. -/
def delete (id : JSValue) (fc : FileContent) :
    Except DBError (Bool × FileContent) := do
  let data ← read fc
  let elems ← asArray data
  let newData ← filterNotId id elems
  if newData.length = elems.length then
    .ok (false, fc)
  else
    .ok (true, write (.array newData))

/-- `query(filterFn)`: read and filter; no write ever happens, which the
model makes visible by returning the (unchanged) file state alongside
the result.  `filterFn` stands for the truthiness of the caller's
predicate on each record. -/
def query (filterFn : JSValue → Bool) (fc : FileContent) :
    Except DBError (List JSValue × FileContent) := do
  let data ← read fc
  let elems ← asArray data
  .ok (elems.filter filterFn, fc)

end LocalJSONDB

/-- One mutating operation of the public surface, with the `Date.now()`
reading of a `create` made explicit. -/
inductive Op where
  | createRec (now : Int) (fields : JSObject)
  | updateRec (id : JSValue) (fields : JSObject)
  | deleteRec (id : JSValue)

/-- Run one mutating operation against the file, keeping the file state
it leaves behind. -/
def runOp (op : Op) (fc : FileContent) : Except DBError FileContent :=
  match op with
  | .createRec now fields => (LocalJSONDB.create now fields fc).map Prod.snd
  | .updateRec id fields => (LocalJSONDB.update id fields fc).map Prod.snd
  | .deleteRec id => (LocalJSONDB.delete id fc).map Prod.snd

/-- Run a sequence of mutating operations left to right. -/
def runOps (ops : List Op) (fc : FileContent) : Except DBError FileContent :=
  match ops with
  | [] => .ok fc
  | op :: rest =>
    match runOp op fc with
    | .error e => .error e
    | .ok fc' => runOps rest fc'

/-- The in-memory document each operation computes (and whose contents
its return value is drawn from), as a pure function of the current
document: `create` appends the new record, `update` replaces the first
match in place (or leaves the document as read), `delete` filters. -/
def applyOp (op : Op) (d : List JSValue) : Except DBError (List JSValue) :=
  match op with
  | .createRec now fields =>
    .ok (d ++ [JSValue.object (mergeInto [("id", JSValue.number now)] fields)])
  | .updateRec id fields =>
    match LocalJSONDB.findIndexById id d with
    | .error e => .error e
    | .ok none => .ok d
    | .ok (some i) =>
      .ok (d.set i (JSValue.object (mergeInto (spreadOf ((d.get? i).getD .null)) fields)))
  | .deleteRec id => LocalJSONDB.filterNotId id d

/-- Document-level semantics of a sequence of mutating operations. -/
def applyOps (ops : List Op) (d : List JSValue) : Except DBError (List JSValue) :=
  match ops with
  | [] => .ok d
  | op :: rest =>
    match applyOp op d with
    | .error e => .error e
    | .ok d' => applyOps rest d'

/-! ### Association-list lemmas for the spread/merge semantics -/

theorem lookupField_objSet_self (o : JSObject) (k : String) (v : JSValue) :
    lookupField (objSet o k v) k = some v := by
  induction o with
  | nil => simp [objSet, lookupField]
  | cons kv rest ih =>
    obtain ⟨k', v'⟩ := kv
    by_cases hk : k' = k
    · subst hk; simp [objSet, lookupField]
    · simp [objSet, lookupField, hk, ih]

theorem lookupField_objSet_ne (o : JSObject) (k' k : String) (v : JSValue)
    (hk : k' ≠ k) : lookupField (objSet o k' v) k = lookupField o k := by
  induction o with
  | nil => simp [objSet, lookupField, hk]
  | cons kv rest ih =>
    obtain ⟨k'', v''⟩ := kv
    by_cases hk'' : k'' = k'
    · subst hk''; simp [objSet, lookupField, hk]
    · simp [objSet, lookupField, hk'', ih]

theorem lookupField_mergeInto (fs : JSObject) (o : JSObject) (k : String) :
    lookupField (mergeInto o fs) k =
      match lookupLast fs k with
      | some w => some w
      | none => lookupField o k := by
  induction fs generalizing o with
  | nil => rfl
  | cons kv rest ih =>
    obtain ⟨k', v⟩ := kv
    have hstep : mergeInto o ((k', v) :: rest) = mergeInto (objSet o k' v) rest := rfl
    rw [hstep, ih]
    cases hl : lookupLast rest k with
    | some w => simp [lookupLast, hl]
    | none =>
      by_cases hk : k' = k
      · subst hk; simp [lookupLast, hl, lookupField_objSet_self]
      · simp [lookupLast, hl, hk, lookupField_objSet_ne o k' k v hk]

/-! ### Lemmas about the id-matching callbacks -/

theorem idMatches_eq_ok (id : JSValue) (r : JSValue) (h : r ≠ JSValue.null) :
    LocalJSONDB.idMatches id r = .ok (LocalJSONDB.idMatchesB id r) := by
  cases r with
  | null => exact absurd rfl h
  | boolean b => rfl
  | number n => rfl
  | string s => rfl
  | array xs => rfl
  | object o =>
    cases hlf : lookupField o "id" <;>
      simp [LocalJSONDB.idMatches, LocalJSONDB.getIdField, LocalJSONDB.idMatchesB, hlf]

theorem findIndexById_ok_some (id : JSValue) (l : List JSValue) (i : Nat)
    (h : LocalJSONDB.findIndexById id l = .ok (some i)) :
    i < l.length ∧
    (∃ r, l.get? i = some r ∧ LocalJSONDB.idMatches id r = .ok true) ∧
    ∀ j, j < i → ∃ r, l.get? j = some r ∧ LocalJSONDB.idMatches id r = .ok false := by
  induction l generalizing i with
  | nil => simp [LocalJSONDB.findIndexById] at h
  | cons r rest ih =>
    rw [LocalJSONDB.findIndexById] at h
    cases hm : LocalJSONDB.idMatches id r with
    | error e => rw [hm] at h; cases h
    | ok b =>
      rw [hm] at h
      cases b with
      | true =>
        simp only [Except.ok.injEq, Option.some.injEq] at h
        subst h
        exact ⟨Nat.succ_pos _, ⟨r, rfl, hm⟩, fun j hj => absurd hj (Nat.not_lt_zero j)⟩
      | false =>
        cases hrest : LocalJSONDB.findIndexById id rest with
        | error e => rw [hrest] at h; cases h
        | ok o =>
          rw [hrest] at h
          cases o with
          | none => cases h
          | some i' =>
            simp at h
            subst h
            obtain ⟨hlen, ⟨r', hr', hm'⟩, hbefore⟩ := ih i' hrest
            refine ⟨Nat.succ_lt_succ hlen, ⟨r', hr', hm'⟩, ?_⟩
            intro j hj
            cases j with
            | zero => exact ⟨r, rfl, hm⟩
            | succ j' => exact hbefore j' (Nat.lt_of_succ_lt_succ hj)

theorem findIndexById_ok_none (id : JSValue) (l : List JSValue)
    (h : LocalJSONDB.findIndexById id l = .ok none) :
    ∀ r ∈ l, LocalJSONDB.idMatches id r = .ok false := by
  induction l with
  | nil => intro r hr; cases hr
  | cons r rest ih =>
    rw [LocalJSONDB.findIndexById] at h
    cases hm : LocalJSONDB.idMatches id r with
    | error e => rw [hm] at h; cases h
    | ok b =>
      rw [hm] at h
      cases b with
      | true => cases h
      | false =>
        cases hrest : LocalJSONDB.findIndexById id rest with
        | error e => rw [hrest] at h; cases h
        | ok o =>
          rw [hrest] at h
          cases o with
          | none =>
            intro r' hr'
            rcases List.mem_cons.mp hr' with rfl | hmem
            · exact hm
            · exact ih hrest r' hmem
          | some i' => cases h

theorem findIndexById_of_all_false (id : JSValue) (l : List JSValue)
    (h : ∀ r ∈ l, LocalJSONDB.idMatches id r = .ok false) :
    LocalJSONDB.findIndexById id l = .ok none := by
  induction l with
  | nil => rfl
  | cons r rest ih =>
    rw [LocalJSONDB.findIndexById, h r (List.mem_cons_self r rest),
        ih (fun r' hr' => h r' (List.mem_cons_of_mem r hr'))]
    rfl

theorem filterNotId_sublist (id : JSValue) (l m : List JSValue)
    (h : LocalJSONDB.filterNotId id l = .ok m) : m.Sublist l := by
  induction l generalizing m with
  | nil =>
    rw [LocalJSONDB.filterNotId] at h
    cases h
    exact List.Sublist.refl _
  | cons r rest ih =>
    rw [LocalJSONDB.filterNotId] at h
    cases hm : LocalJSONDB.idMatches id r with
    | error e => rw [hm] at h; cases h
    | ok b =>
      rw [hm] at h
      cases hrest : LocalJSONDB.filterNotId id rest with
      | error e => rw [hrest] at h; cases h
      | ok rest' =>
        rw [hrest] at h
        cases b with
        | true =>
          cases h
          exact (ih rest' hrest).cons r
        | false =>
          cases h
          exact (ih rest' hrest).cons₂ r

theorem filterNotId_pure (id : JSValue) (l : List JSValue)
    (h : ∀ r ∈ l, r ≠ JSValue.null) :
    LocalJSONDB.filterNotId id l =
      .ok (l.filter (fun r => !LocalJSONDB.idMatchesB id r)) := by
  induction l with
  | nil => rfl
  | cons r rest ih =>
    rw [LocalJSONDB.filterNotId, idMatches_eq_ok id r (h r (List.mem_cons_self r rest)),
        ih (fun r' hr' => h r' (List.mem_cons_of_mem r hr'))]
    cases hm : LocalJSONDB.idMatchesB id r <;> simp [List.filter_cons, hm]

/-! ### Unfolding the operations on a well-formed (array-holding) file -/

theorem create_stored (now : Int) (record : JSObject) (d : List JSValue) :
    LocalJSONDB.create now record (.stored (.array d)) =
      .ok (mergeInto [("id", JSValue.number now)] record,
           .stored (.array (d ++ [JSValue.object (mergeInto [("id", JSValue.number now)] record)]))) :=
  rfl

theorem update_stored_bind (id : JSValue) (fs : JSObject) (d : List JSValue) :
    LocalJSONDB.update id fs (.stored (.array d)) =
      Except.bind (LocalJSONDB.findIndexById id d)
        (fun idx =>
          match idx with
          | none => .ok (none, .stored (.array d))
          | some index =>
            .ok (some (mergeInto (spreadOf ((d.get? index).getD .null)) fs),
                 .stored (.array (d.set index
                   (JSValue.object (mergeInto (spreadOf ((d.get? index).getD .null)) fs)))))) :=
  rfl

theorem delete_stored_bind (id : JSValue) (d : List JSValue) :
    LocalJSONDB.delete id (.stored (.array d)) =
      Except.bind (LocalJSONDB.filterNotId id d)
        (fun newData =>
          if newData.length = d.length then .ok (false, .stored (.array d))
          else .ok (true, .stored (.array newData))) :=
  rfl

theorem query_stored (p : JSValue → Bool) (d : List JSValue) :
    LocalJSONDB.query p (.stored (.array d)) = .ok (d.filter p, .stored (.array d)) :=
  rfl

/-! ### Refinement: the file-level run of an operation is the write of the
document-level result -/

theorem runOp_refines (op : Op) (d : List JSValue) :
    runOp op (.stored (.array d)) =
      (applyOp op d).map (fun d' => FileContent.stored (.array d')) := by
  cases op with
  | createRec now fields => rfl
  | updateRec id fields =>
    show (LocalJSONDB.update id fields (.stored (.array d))).map Prod.snd = _
    rw [update_stored_bind]
    cases h : LocalJSONDB.findIndexById id d with
    | error e => simp [applyOp, h, Except.bind, Except.map]
    | ok o => cases o <;> simp [applyOp, h, Except.bind, Except.map]
  | deleteRec id =>
    show (LocalJSONDB.delete id (.stored (.array d))).map Prod.snd = _
    rw [delete_stored_bind]
    cases h : LocalJSONDB.filterNotId id d with
    | error e => simp [applyOp, h, Except.bind, Except.map]
    | ok nd =>
      by_cases hlen : nd.length = d.length
      · have hnd : nd = d := (filterNotId_sublist id d nd h).eq_of_length hlen
        simp [applyOp, h, Except.bind, Except.map, hlen, hnd]
      · simp [applyOp, h, Except.bind, Except.map, hlen]

theorem runOps_refines (ops : List Op) (d : List JSValue) :
    runOps ops (.stored (.array d)) =
      (applyOps ops d).map (fun d' => FileContent.stored (.array d')) := by
  induction ops generalizing d with
  | nil => rfl
  | cons op rest ih =>
    rw [runOps, runOp_refines]
    cases h : applyOp op d with
    | error e => simp [applyOps, h, Except.map]
    | ok d' => simp [applyOps, h, Except.map, ih]

/-! ### Claim theorems -/

/-- C1 counterexample: `create` builds `{ id: Date.now(), ...record }`, so a
caller-supplied `id` entry in `fields` comes AFTER the synthesized one and
overwrites it — contrary to the claim.  Concretely, with `Date.now() = 100`
and `fields = {id: 42}` on an empty document, the created and persisted
record has `id = 42`, not the synthesized `100`. -/
theorem c1_create_id_counterexample :
    LocalJSONDB.create 100 [("id", JSValue.number 42)] (.stored (.array [])) =
      .ok ([("id", JSValue.number 42)],
           .stored (.array [JSValue.object [("id", JSValue.number 42)]]))
    ∧ lookupField [("id", JSValue.number 42)] "id" = some (JSValue.number 42)
    ∧ (42 : Int) ≠ 100 :=
  ⟨rfl, rfl, by decide⟩

/-- C1 (amended): `create(fields)` returns the record
`{ id: synthesized, ...fields }` and appends exactly that record.  The
returned record always has an `id` field; its value is the synthesized
identifier when `fields` carries no `id` entry, and the caller-supplied
value otherwise (the spread overrides the synthesized id).  Every field of
`fields` other than `id` appears unchanged, and fields absent from
`fields` (other than `id`) are absent from the result. -/
theorem c1_create_spec (now : Int) (fields : JSObject) (d : List JSValue) :
    LocalJSONDB.create now fields (.stored (.array d)) =
      .ok (mergeInto [("id", JSValue.number now)] fields,
           .stored (.array (d ++ [JSValue.object (mergeInto [("id", JSValue.number now)] fields)])))
    ∧ lookupField (mergeInto [("id", JSValue.number now)] fields) "id" =
        some ((lookupLast fields "id").getD (JSValue.number now))
    ∧ ∀ k, k ≠ "id" →
        lookupField (mergeInto [("id", JSValue.number now)] fields) k = lookupLast fields k := by
  refine ⟨create_stored now fields d, ?_, ?_⟩
  · rw [lookupField_mergeInto]
    cases h : lookupLast fields "id" with
    | some w => simp
    | none => simp [lookupField]
  · intro k hk
    rw [lookupField_mergeInto]
    cases h : lookupLast fields k with
    | some w => simp
    | none => simp [lookupField, Ne.symm hk]

/-- C1 witness: applying the amended theorem at `now = 100`,
`fields = {id: 42, name: "x"}` on the empty document, the non-id field
`name` of the returned record equals the one supplied. -/
theorem c1_create_spec_witness :
    lookupField
        (mergeInto [("id", JSValue.number 100)]
          [("id", JSValue.number 42), ("name", JSValue.string "x")]) "name" =
      lookupLast [("id", JSValue.number 42), ("name", JSValue.string "x")] "name" :=
  (c1_create_spec 100 [("id", JSValue.number 42), ("name", JSValue.string "x")] []).2.2
    "name" (by decide)

/-- C2 counterexample: `read()` is bare `JSON.parse` with no array-shape
check — on a file holding the JSON object `{}` it returns that non-array
value as the document instead of failing. -/
theorem c2_read_nonarray_counterexample :
    LocalJSONDB.read (.stored (.object [])) = .ok (JSValue.object []) :=
  rfl

/-- C2 (amended): `read()` fails exactly when the file content is not
valid JSON (with `JSON.parse`'s `SyntaxError`; the code defines no
`CorruptStoreError`).  Content that parses to ANY JSON value — array or
not — is returned as-is, with no array-shape validation. -/
theorem c2_read_spec :
    (∀ raw, LocalJSONDB.read (.invalid raw) = .error .syntaxError)
    ∧ (∀ v, LocalJSONDB.read (.stored v) = .ok v) :=
  ⟨fun _ => rfl, fun _ => rfl⟩

/-- C8: constructing a store over an absent file writes the serialized
empty document `[]`, and a subsequent `read()` returns the empty array. -/
theorem c8_construct_fresh :
    LocalJSONDB.construct .absent = .stored (.array [])
    ∧ LocalJSONDB.read (LocalJSONDB.construct .absent) = .ok (.array []) :=
  ⟨rfl, rfl⟩

/-- C9: constructing a store over an existing file performs no write at
all: whatever the file holds — any JSON value, array-shaped or not, or
bytes that are not valid JSON — it is left exactly as it was. -/
theorem c9_construct_existing (fc : FileContent) (h : fc ≠ FileContent.absent) :
    LocalJSONDB.construct fc = fc := by
  cases fc with
  | absent => exact absurd rfl h
  | stored v => rfl
  | invalid raw => rfl

/-- C9 witness: a file holding bytes that are not valid JSON is untouched. -/
theorem c9_construct_existing_witness :
    LocalJSONDB.construct (.invalid "not json") = .invalid "not json" :=
  c9_construct_existing (.invalid "not json") (fun h => FileContent.noConfusion h)

/-- C3: read-your-writes.  Running any sequence of create/update/delete
operations on a file holding an array document is exactly the pure
document-level semantics followed by serializing the resulting in-memory
document into the file: after every successful run the file holds the
serialized form of the in-memory document the operations computed, and
deserializing it (`read`) returns that document exactly.  Instantiating
`ops` with each prefix of a sequence yields the property after each
individual operation. -/
theorem c3_read_your_writes (ops : List Op) (d : List JSValue) :
    runOps ops (.stored (.array d)) =
      (applyOps ops d).map (fun d' => FileContent.stored (.array d'))
    ∧ ∀ fc', runOps ops (.stored (.array d)) = .ok fc' →
        ∃ d', applyOps ops d = .ok d' ∧ fc' = .stored (.array d')
              ∧ LocalJSONDB.read fc' = .ok (.array d') := by
  refine ⟨runOps_refines ops d, fun fc' h => ?_⟩
  rw [runOps_refines] at h
  cases ha : applyOps ops d with
  | error e => rw [ha] at h; cases h
  | ok d' =>
    rw [ha] at h
    have he : FileContent.stored (.array d') = fc' := Except.ok.inj h
    exact ⟨d', rfl, he.symm, by rw [← he]; rfl⟩

/-- C3 witness: one `create` on the empty document leaves the file
holding exactly the one-record document the operation computed. -/
theorem c3_read_your_writes_witness :
    ∃ d', applyOps [Op.createRec 7 [("a", JSValue.number 1)]] [] = .ok d'
      ∧ (FileContent.stored (.array [JSValue.object [("id", JSValue.number 7), ("a", JSValue.number 1)]])
           = FileContent.stored (.array d'))
      ∧ LocalJSONDB.read
          (.stored (.array [JSValue.object [("id", JSValue.number 7), ("a", JSValue.number 1)]])) =
          .ok (.array d') :=
  (c3_read_your_writes [Op.createRec 7 [("a", JSValue.number 1)]] []).2
    (.stored (.array [JSValue.object [("id", JSValue.number 7), ("a", JSValue.number 1)]])) rfl

/-- C4: `update` on a document containing a matching record: the
`findIndex` scan selects the FIRST index `i` whose record's `id` is
strictly equal to the given id (everything before `i` does not match);
the call returns the old record with `partialFields` spread on top
(fields named in `partialFields` — `id` included — take the
`partialFields` value, the last occurrence winning; fields not named
keep the old record's value) and persists the document with the merged
record replacing the old one at position `i`, every other position
unchanged. -/
theorem c4_update_found (id : JSValue) (fields : JSObject) (d : List JSValue) (i : Nat)
    (h : LocalJSONDB.findIndexById id d = .ok (some i)) :
    LocalJSONDB.update id fields (.stored (.array d)) =
      .ok (some (mergeInto (spreadOf ((d.get? i).getD .null)) fields),
           .stored (.array (d.set i
             (JSValue.object (mergeInto (spreadOf ((d.get? i).getD .null)) fields)))))
    ∧ i < d.length
    ∧ (∃ r, d.get? i = some r ∧ LocalJSONDB.idMatches id r = .ok true)
    ∧ (∀ j, j < i → ∃ r, d.get? j = some r ∧ LocalJSONDB.idMatches id r = .ok false)
    ∧ (∀ k w, lookupLast fields k = some w →
        lookupField (mergeInto (spreadOf ((d.get? i).getD .null)) fields) k = some w)
    ∧ (∀ k, lookupLast fields k = none →
        lookupField (mergeInto (spreadOf ((d.get? i).getD .null)) fields) k =
          lookupField (spreadOf ((d.get? i).getD .null)) k)
    ∧ (∀ j, j ≠ i →
        (d.set i (JSValue.object (mergeInto (spreadOf ((d.get? i).getD .null)) fields))).get? j =
          d.get? j) := by
  obtain ⟨hlen, hAt, hbefore⟩ := findIndexById_ok_some id d i h
  refine ⟨?_, hlen, hAt, hbefore, ?_, ?_, ?_⟩
  · rw [update_stored_bind, h]; rfl
  · intro k w hk
    rw [lookupField_mergeInto, hk]
  · intro k hk
    rw [lookupField_mergeInto, hk]
  · intro j hj
    rw [List.get?_eq_getElem?, List.getElem?_set_ne (Ne.symm hj)]
    exact (List.get?_eq_getElem? d j).symm

/-- C4 witness: updating `{id: 1, a: 2}` with `{a: 9, b: 3}` returns the
shallow-merged record and persists it in place. -/
theorem c4_update_found_witness :
    LocalJSONDB.update (JSValue.number 1) [("a", JSValue.number 9), ("b", JSValue.number 3)]
        (.stored (.array [JSValue.object [("id", JSValue.number 1), ("a", JSValue.number 2)]])) =
      .ok (some [("id", JSValue.number 1), ("a", JSValue.number 9), ("b", JSValue.number 3)],
           .stored (.array [JSValue.object
             [("id", JSValue.number 1), ("a", JSValue.number 9), ("b", JSValue.number 3)]])) :=
  (c4_update_found (JSValue.number 1) [("a", JSValue.number 9), ("b", JSValue.number 3)]
    [JSValue.object [("id", JSValue.number 1), ("a", JSValue.number 2)]] 0 rfl).1

/-- C5: `update` with an id matching no record returns the absent-marker
`null` (modelled `none`) rather than raising, and the file state it
returns alongside is the very input state — the persist step is never
reached, so the file content is unchanged. -/
theorem c5_update_not_found (id : JSValue) (fields : JSObject) (d : List JSValue)
    (h : LocalJSONDB.findIndexById id d = .ok none) :
    LocalJSONDB.update id fields (.stored (.array d)) = .ok (none, .stored (.array d))
    ∧ ∀ r ∈ d, LocalJSONDB.idMatches id r = .ok false := by
  refine ⟨?_, findIndexById_ok_none id d h⟩
  rw [update_stored_bind, h]; rfl

/-- C5 witness: updating id 9 in a document whose only record has id 1
returns `none` and leaves the file as it was. -/
theorem c5_update_not_found_witness :
    LocalJSONDB.update (JSValue.number 9) []
        (.stored (.array [JSValue.object [("id", JSValue.number 1)]])) =
      .ok (none, .stored (.array [JSValue.object [("id", JSValue.number 1)]])) :=
  (c5_update_not_found (JSValue.number 9) []
    [JSValue.object [("id", JSValue.number 1)]] rfl).1

/-- C6: `delete(id)` has filter semantics: it removes EVERY record whose
`id` is strictly equal to the given id, not just the first.  When
nothing matched (filtered length = original length) it returns `false`
with the input file state untouched; otherwise it persists the filtered
document, returns `true`, every surviving record fails the id match,
every non-matching record survives, and a subsequent `read` of the
persisted state returns exactly the filtered document. -/
theorem c6_delete_spec (id : JSValue) (d : List JSValue)
    (hnn : ∀ r ∈ d, r ≠ JSValue.null) :
    (LocalJSONDB.delete id (.stored (.array d)) =
       if (d.filter (fun r => !LocalJSONDB.idMatchesB id r)).length = d.length
       then .ok (false, .stored (.array d))
       else .ok (true, .stored (.array (d.filter (fun r => !LocalJSONDB.idMatchesB id r)))))
    ∧ ((d.filter (fun r => !LocalJSONDB.idMatchesB id r)).length = d.length ↔
        ∀ r ∈ d, LocalJSONDB.idMatchesB id r = false)
    ∧ (∀ r ∈ d.filter (fun r => !LocalJSONDB.idMatchesB id r),
        LocalJSONDB.idMatchesB id r = false)
    ∧ (∀ r ∈ d, LocalJSONDB.idMatchesB id r = false →
        r ∈ d.filter (fun r => !LocalJSONDB.idMatchesB id r))
    ∧ LocalJSONDB.read (.stored (.array (d.filter (fun r => !LocalJSONDB.idMatchesB id r)))) =
        .ok (.array (d.filter (fun r => !LocalJSONDB.idMatchesB id r))) := by
  refine ⟨?_, ?_, ?_, ?_, rfl⟩
  · rw [delete_stored_bind, filterNotId_pure id d hnn]
    rfl
  · constructor
    · intro hlen r hr
      have hself : d.filter (fun r => !LocalJSONDB.idMatchesB id r) = d :=
        (List.filter_sublist d).eq_of_length hlen
      have := List.filter_eq_self.mp hself r hr
      simpa using this
    · intro hall
      rw [List.filter_eq_self.mpr (fun r hr => by simp [hall r hr])]
  · intro r hr
    have := (List.mem_filter.mp hr).2
    simpa using this
  · intro r hr hfalse
    exact List.mem_filter.mpr ⟨hr, by simp [hfalse]⟩

/-- C6 witness: deleting id 1 from a document with two records of id 1
around one of id 2 removes BOTH matches, persists `[{id: 2}]` and
returns `true`. -/
theorem c6_delete_spec_witness :
    LocalJSONDB.delete (JSValue.number 1)
        (.stored (.array [JSValue.object [("id", JSValue.number 1)],
                          JSValue.object [("id", JSValue.number 2)],
                          JSValue.object [("id", JSValue.number 1)]])) =
      .ok (true, .stored (.array [JSValue.object [("id", JSValue.number 2)]])) :=
  (c6_delete_spec (JSValue.number 1)
    [JSValue.object [("id", JSValue.number 1)],
     JSValue.object [("id", JSValue.number 2)],
     JSValue.object [("id", JSValue.number 1)]] (by simp)).1

/-- C7: `query(predicate)` returns exactly the records satisfying the
predicate, in document order (the result is a sublist of the document),
and performs no write: the file state alongside the result is the input
state itself. -/
theorem c7_query_spec (p : JSValue → Bool) (d : List JSValue) :
    LocalJSONDB.query p (.stored (.array d)) = .ok (d.filter p, .stored (.array d))
    ∧ (d.filter p).Sublist d
    ∧ (∀ r, r ∈ d.filter p ↔ r ∈ d ∧ p r = true) :=
  ⟨query_stored p d, List.filter_sublist d, fun _ => List.mem_filter⟩

/-- C10: record matching in `update` and `delete` uses strict equality
`===`: a record id of one primitive type never matches a given id of
another.  On a document all of whose records carry number ids, `delete`
with a STRING id removes nothing and returns `false` with the file
untouched, and `update` with that id returns the absent-marker with the
file untouched; in particular `strictEq` on a number vs. a string is
always `false`, whatever the digits. -/
theorem c10_strict_equality (s : String) (fields : JSObject) (d : List JSValue)
    (h : ∀ r ∈ d, ∃ o n, r = JSValue.object o ∧ lookupField o "id" = some (JSValue.number n)) :
    LocalJSONDB.delete (JSValue.string s) (.stored (.array d)) =
      .ok (false, .stored (.array d))
    ∧ LocalJSONDB.update (JSValue.string s) fields (.stored (.array d)) =
        .ok (none, .stored (.array d))
    ∧ (∀ n : Int, strictEq (JSValue.number n) (JSValue.string s) = false) := by
  have hnn : ∀ r ∈ d, r ≠ JSValue.null := by
    intro r hr
    obtain ⟨o, n, rfl, -⟩ := h r hr
    exact fun hh => JSValue.noConfusion hh
  have hfalse : ∀ r ∈ d, LocalJSONDB.idMatches (JSValue.string s) r = .ok false := by
    intro r hr
    obtain ⟨o, n, rfl, ho⟩ := h r hr
    simp [LocalJSONDB.idMatches, LocalJSONDB.getIdField, ho, strictEq]
  have hfn : LocalJSONDB.filterNotId (JSValue.string s) d = .ok d := by
    rw [filterNotId_pure _ d hnn]
    congr 1
    apply List.filter_eq_self.mpr
    intro r hr
    obtain ⟨o, n, rfl, ho⟩ := h r hr
    simp [LocalJSONDB.idMatchesB, ho, strictEq]
  refine ⟨?_, ?_, fun n => rfl⟩
  · rw [delete_stored_bind, hfn]
    simp [Except.bind]
  · rw [update_stored_bind, findIndexById_of_all_false _ d hfalse]
    rfl

/-- C10 witness: `delete("5")` on a document whose single record has the
NUMBER id 5 removes nothing and returns `false`. -/
theorem c10_strict_equality_witness :
    LocalJSONDB.delete (JSValue.string "5")
        (.stored (.array [JSValue.object [("id", JSValue.number 5)]])) =
      .ok (false, .stored (.array [JSValue.object [("id", JSValue.number 5)]])) :=
  (c10_strict_equality "5" [] [JSValue.object [("id", JSValue.number 5)]]
    (fun r hr => by
      rcases List.mem_cons.mp hr with rfl | h0
      · exact ⟨[("id", JSValue.number 5)], 5, rfl, rfl⟩
      · cases h0)).1
